import Mathlib

/-!
# Verification of the fortio/tsync discovery-and-pairing core

Shallow embedding, in Lean 4, of the parts of the `fortio/tsync` repository
that the checked claims are about:

* `smap` — the concurrent versioned registry (`smap/smap.go`, the versioned
  variant): entries are modelled as an association list, the `uint64` version
  counter as a `Nat` reduced modulo `2^64` on every increment, and every
  mutating operation (`Set`, `MultiSet`, `Delete`, `Clear`) bumps it exactly
  as the Go code does.  Sorted iteration (`AllSorted` / `NaturalSort`) is
  modelled with an explicit per-key lookup state, mirroring the
  snapshot-keys / sort / re-read-each-value-without-the-lock structure of the
  source; the registry state seen by each individual re-read is an input of
  the model, which is exactly the freedom the dropped lock gives a concurrent
  mutator.
* `tcrypto` — byte/string encodings (`EncodeBytes`/`DecodeBytes` with role
  tags, raw URL-safe base64 without padding), `SignMessage` /
  `VerifySignedMessage` over an abstract Ed25519 primitive (the primitive
  itself is Go standard library code, outside this repository, so it enters
  the model as an explicit parameter), `HumanHash` over a full executable
  SHA-256, and the public-key decoding entry points
  (`IdentityPublicKeyString`, `StringToPublicKey`).
* `tsnet` — the multicast receive step (self-packet filter, self-collision
  handling, peer insert/update), the advertiser epoch tick (`runAdv`) over
  wrapping 32-bit integers, and `ConnectToPeer`.  Socket operations are I/O;
  their outcomes (datagram contents, dial/write results) are inputs of the
  step functions.

Go strings are modelled as `List Char` in `tcrypto` (where byte-level
structure matters) and as `String` in `tsnet` (where they are opaque keys);
byte slices are `List Nat` with every byte below 256.
-/

set_option maxRecDepth 10000

namespace Tsync

/-! ## The versioned concurrent registry (`smap/smap.go`) -/

/-- `2^64`, the modulus of Go's `uint64` version counter. -/
def U64MOD : Nat := 18446744073709551616

/-- Model of `smap.Map[K,V]`: the underlying Go map as an association list
(first binding for a key wins on lookup), plus the `uint64` version counter. -/
structure SMap (K V : Type) where
  entries : List (K × V)
  version : Nat
deriving Repr

/-- `smap.New`: empty map, version 0. -/
def SMap.new (K V : Type) : SMap K V := ⟨[], 0⟩

/-- Insert-or-overwrite one binding in the association list (Go map assignment
`s.m[key] = value`). -/
def upsert {K V : Type} [DecidableEq K] : List (K × V) → K → V → List (K × V)
  | [], k, v => [(k, v)]
  | (k', v') :: rest, k, v =>
    if k' = k then (k, v) :: rest else (k', v') :: upsert rest k v

/-- Remove a key from the association list (Go `delete(s.m, k)`). -/
def eraseKey {K V : Type} [DecidableEq K] (l : List (K × V)) (k : K) : List (K × V) :=
  l.filter (fun p => !(p.1 = k : Bool))

/-- `Map.Get`: lookup, returning the value when the key is present. -/
def SMap.get {K V : Type} [DecidableEq K] (s : SMap K V) (k : K) : Option V :=
  (s.entries.find? (fun p => p.1 = k)).map Prod.snd

/-- `Map.Set`: insert or overwrite one key, version incremented once
(`uint64` wraparound made explicit). -/
def SMap.set {K V : Type} [DecidableEq K] (s : SMap K V) (k : K) (v : V) : SMap K V :=
  ⟨upsert s.entries k v, (s.version + 1) % U64MOD⟩

/-- `Map.MultiSet`: insert or overwrite each listed binding, one version bump
for the whole call. -/
def SMap.multiSet {K V : Type} [DecidableEq K] (s : SMap K V) (kvs : List (K × V)) : SMap K V :=
  ⟨kvs.foldl (fun l p => upsert l p.1 p.2) s.entries, (s.version + 1) % U64MOD⟩

/-- `Map.Delete`: remove zero or more keys (absent keys are a no-op), one
version bump for the whole call. -/
def SMap.delete {K V : Type} [DecidableEq K] (s : SMap K V) (ks : List K) : SMap K V :=
  ⟨ks.foldl eraseKey s.entries, (s.version + 1) % U64MOD⟩

/-- `Map.Clear`: drop every entry, one version bump. -/
def SMap.clear {K V : Type} (s : SMap K V) : SMap K V :=
  ⟨[], (s.version + 1) % U64MOD⟩

/-- `Map.Has`. -/
def SMap.has {K V : Type} [DecidableEq K] (s : SMap K V) (k : K) : Bool :=
  (s.get k).isSome

/-- `Map.Len`. -/
def SMap.length {K V : Type} (s : SMap K V) : Nat := s.entries.length

/-- One mutating registry call, as in the claim "any mix of `Set`, `MultiSet`,
`Delete`, `Clear`". -/
inductive SOp (K V : Type) where
  | set (k : K) (v : V)
  | multiSet (kvs : List (K × V))
  | del (ks : List K)
  | clear

/-- Apply one mutating call. -/
def applySOp {K V : Type} [DecidableEq K] (s : SMap K V) : SOp K V → SMap K V
  | .set k v => s.set k v
  | .multiSet kvs => s.multiSet kvs
  | .del ks => s.delete ks
  | .clear => s.clear

/-- Apply a finite sequence of mutating calls, in order. -/
def applySOps {K V : Type} [DecidableEq K] (s : SMap K V) (ops : List (SOp K V)) : SMap K V :=
  ops.foldl applySOp s

/-! Sorted iteration.  `AllSorted` snapshots the key set under a read lock,
sorts it with the caller's `less` without the lock, then re-reads each value
(each re-read takes the lock again, so each key sees whatever the registry
holds at that instant).  The registry state at the instant key `k` is
re-read is modelled by `mapAt k`. -/

/-- Insert into a `le`-sorted list (helper for the sort the iterator runs on
its key snapshot). -/
def insSorted {K : Type} (le : K → K → Bool) (a : K) : List K → List K
  | [] => [a]
  | b :: rest => if le a b then a :: b :: rest else b :: insSorted le a rest

/-- Sort a key snapshot by `le` (the model's stand-in for `sort.Slice` /
`slices.Sort`; only the multiset of keys matters for the claims). -/
def sortWith {K : Type} (le : K → K → Bool) : List K → List K
  | [] => []
  | a :: rest => insSorted le a (sortWith le rest)

/-- `Map.AllSorted(less)` as observed by a consumer that drains the iterator:
snapshot the keys of `s`, sort, then for each key look the value up in
`mapAt k` — the registry as it stands when that key's re-read executes —
skipping keys whose lookup misses. -/
def allSortedRun {K V : Type} [DecidableEq K] (less : K → K → Bool)
    (s : SMap K V) (mapAt : K → SMap K V) : List (K × V) :=
  (sortWith less (s.entries.map Prod.fst)).filterMap
    (fun k => ((mapAt k).get k).map (fun v => (k, v)))

/-- `smap.NaturalSort` as observed by a consumer that drains the iterator:
same shape as `allSortedRun`, with the key type's natural `≤` order. -/
def naturalSortRun {K V : Type} [DecidableEq K] [LinearOrder K]
    (s : SMap K V) (mapAt : K → SMap K V) : List (K × V) :=
  (sortWith (fun a b => decide (a ≤ b)) (s.entries.map Prod.fst)).filterMap
    (fun k => ((mapAt k).get k).map (fun v => (k, v)))

/-! ## `tcrypto` encodings (`encoding.go` tagged variant, `identity.go`) -/

/-- Errors of the `tcrypto` package (`errors.go`): `EncodingError` and
`SignatureInvalidError`, each carrying its message. -/
inductive TcErr where
  | encodingErr (msg : String)
  | signatureInvalidErr (msg : String)
deriving DecidableEq, Repr

/-- `true` exactly on the error side of an `Except` result. -/
def isErr {ε α : Type} : Except ε α → Bool
  | .error _ => true
  | .ok _ => false

/-- The `base64.RawURLEncoding` alphabet (URL-safe, `-` and `_`, no padding). -/
def b64Alphabet : List Char :=
  "ABCDEFGHIJKLMNOPQRSTUVWXYZabcdefghijklmnopqrstuvwxyz0123456789-_".data

/-- Character for a 6-bit group. -/
def b64Char (i : Nat) : Char := b64Alphabet.getD i '?'

/-- Index of a character in the base64url alphabet, `none` for a character
outside it (which makes decoding fail, as in Go). -/
def b64Index (c : Char) : Option Nat :=
  go 0 b64Alphabet
where
  go (i : Nat) : List Char → Option Nat
    | [] => none
    | c' :: rest => if c' = c then some i else go (i + 1) rest

/-- `base64.RawURLEncoding.EncodeToString`: 3 input bytes become 4 characters;
a 1- or 2-byte tail becomes 2 or 3 characters, with no padding. -/
def b64Encode : List Nat → List Char
  | [] => []
  | [b0] => [b64Char (b0 / 4), b64Char (b0 % 4 * 16)]
  | [b0, b1] => [b64Char (b0 / 4), b64Char (b0 % 4 * 16 + b1 / 16), b64Char (b1 % 16 * 4)]
  | b0 :: b1 :: b2 :: rest =>
    b64Char (b0 / 4) :: b64Char (b0 % 4 * 16 + b1 / 16) ::
      b64Char (b1 % 16 * 4 + b2 / 64) :: b64Char (b2 % 64) :: b64Encode rest

/-- `base64.RawURLEncoding.DecodeString`: 4 characters back to 3 bytes, a 2- or
3-character tail back to 1 or 2 bytes; a lone trailing character (length ≡ 1
mod 4) or a character outside the alphabet is an error. -/
def b64Decode : List Char → Except TcErr (List Nat)
  | [] => .ok []
  | [_] => .error (.encodingErr "illegal base64 data")
  | [c0, c1] =>
    match b64Index c0, b64Index c1 with
    | some i0, some i1 => .ok [i0 * 4 + i1 / 16]
    | _, _ => .error (.encodingErr "illegal base64 data")
  | [c0, c1, c2] =>
    match b64Index c0, b64Index c1, b64Index c2 with
    | some i0, some i1, some i2 => .ok [i0 * 4 + i1 / 16, i1 % 16 * 16 + i2 / 4]
    | _, _, _ => .error (.encodingErr "illegal base64 data")
  | c0 :: c1 :: c2 :: c3 :: rest =>
    match b64Index c0, b64Index c1, b64Index c2, b64Index c3, b64Decode rest with
    | some i0, some i1, some i2, some i3, .ok tail =>
      .ok ((i0 * 4 + i1 / 16) :: (i1 % 16 * 16 + i2 / 4) :: (i2 % 4 * 64 + i3) :: tail)
    | _, _, _, _, .error e => .error e
    | _, _, _, _, _ => .error (.encodingErr "illegal base64 data")

/-- `SignedPrefix = "s."` — the role tag of a signed envelope. -/
def signedTag : List Char := ['s', '.']

/-- `PrivateKeyPrefix = "k."` — the role tag of an encoded private key. -/
def privateKeyTag : List Char := ['k', '.']

/-- `PublicKeyPrefix = "p."` — the role tag of an encoded public key. -/
def publicKeyTag : List Char := ['p', '.']

/-- `EncodeBytes(prefix, b)`: the role tag followed by the base64url body. -/
def encodeBytes (tag : List Char) (b : List Nat) : List Char :=
  tag ++ b64Encode b

/-- `DecodeBytes(prefix, s)`: reject any string shorter than the tag or not
starting with it, then base64url-decode the remainder. -/
def decodeBytes (tag : List Char) (s : List Char) : Except TcErr (List Nat) :=
  if s.length < tag.length ∨ s.take tag.length ≠ tag then
    .error (.encodingErr "invalid prefix")
  else
    b64Decode (s.drop tag.length)

/-- `IdentityPublicKeyString`: decode a signing public key, which must carry
the `p.` tag (the `ed25519.PublicKey` wrapper is the raw bytes). -/
def identityPublicKeyString (s : List Char) : Except TcErr (List Nat) :=
  decodeBytes publicKeyTag s

/-- `StringToPublicKey` (`ecdh.go`): decode a key-agreement public key, which
must carry the `p.` tag; `ecdh.X25519().NewPublicKey` (Go standard library)
additionally rejects a point that is not exactly 32 bytes. -/
def stringToPublicKey (s : List Char) : Except TcErr (List Nat) :=
  match decodeBytes publicKeyTag s with
  | .error e => .error e
  | .ok bytes =>
    if bytes.length = 32 then .ok bytes
    else .error (.encodingErr "crypto/ecdh: invalid public key")

/-! ### Signed messages (`identity.go`, tagged variant)

`ed25519.Sign` / `ed25519.Verify` are Go standard library primitives, outside
this repository; they enter the model as an explicit signature scheme
parameter.  `tcrypto` only builds and parses the envelope around them. -/

/-- The Ed25519 primitive, abstracted: `sign priv msg` yields the signature
bytes, `verify pub msg sig` the boolean check. -/
structure SigScheme where
  sign : List Nat → List Nat → List Nat
  verify : List Nat → List Nat → List Nat → Bool

/-- `Identity`: the long-term signing keypair. -/
structure SIdentity where
  privateKey : List Nat
  publicKey : List Nat

/-- Split a string at its first `/` (Go `strings.SplitN(s, "/", 2)` yields two
parts exactly when a separator is present). -/
def splitFirstSlash : List Char → Option (List Char × List Char)
  | [] => none
  | c :: rest =>
    if c = '/' then some ([], rest)
    else (splitFirstSlash rest).map (fun p => (c :: p.1, p.2))

/-- `Identity.SignMessage`: the `s.`-tagged base64 message, a `/` separator,
then the untagged base64 signature. -/
def signMessage (E : SigScheme) (id : SIdentity) (message : List Nat) : List Char :=
  encodeBytes signedTag message ++ '/' :: encodeBytes [] (E.sign id.privateKey message)

/-- `VerifySignedMessage`: split at the first `/` (missing separator is a
format error), decode both halves (the message half must carry the `s.` tag),
then run the cryptographic check; only a passing check releases the message. -/
def verifySignedMessage (E : SigScheme) (s : List Char) (pubKey : List Nat) :
    Except TcErr (List Nat) :=
  match splitFirstSlash s with
  | none => .error (.signatureInvalidErr "invalid signed message format, missing separator")
  | some (p0, p1) =>
    match decodeBytes signedTag p0 with
    | .error _ => .error (.signatureInvalidErr "failed to decode message")
    | .ok message =>
      match decodeBytes [] p1 with
      | .error _ => .error (.signatureInvalidErr "failed to decode signature")
      | .ok signature =>
        if E.verify pubKey message signature then .ok message
        else .error (.signatureInvalidErr "signature verification failed")

/-! ### SHA-256 (`crypto/sha256.Sum256`, Go standard library — FIPS 180-4)

`HumanHash` starts from `sha256.Sum256(data)`; the digest function is
embedded executably so that the fingerprint claims can be checked on
concrete inputs.  Words are `Nat` kept below `2^32` by explicit reduction. -/

/-- `2^32`, the 32-bit word modulus. -/
def W32 : Nat := 4294967296

/-- Bitwise complement of a 32-bit word. -/
def not32 (x : Nat) : Nat := (W32 - 1) - x % W32

/-- Right-rotation of a 32-bit word by `n` (0 < n < 32). -/
def rotr32 (n x : Nat) : Nat := x / 2 ^ n + x % 2 ^ n * 2 ^ (32 - n)

/-- `Ch(x,y,z)`. -/
def shaCh (x y z : Nat) : Nat := (x &&& y) ^^^ (not32 x &&& z)

/-- `Maj(x,y,z)`. -/
def shaMaj (x y z : Nat) : Nat := (x &&& y) ^^^ (x &&& z) ^^^ (y &&& z)

/-- `Σ₀`. -/
def bsig0 (x : Nat) : Nat := rotr32 2 x ^^^ rotr32 13 x ^^^ rotr32 22 x

/-- `Σ₁`. -/
def bsig1 (x : Nat) : Nat := rotr32 6 x ^^^ rotr32 11 x ^^^ rotr32 25 x

/-- `σ₀`. -/
def ssig0 (x : Nat) : Nat := rotr32 7 x ^^^ rotr32 18 x ^^^ x / 2 ^ 3

/-- `σ₁`. -/
def ssig1 (x : Nat) : Nat := rotr32 17 x ^^^ rotr32 19 x ^^^ x / 2 ^ 10

/-- The eight-word SHA-256 working state. -/
structure SHAState where
  a : Nat
  b : Nat
  c : Nat
  d : Nat
  e : Nat
  f : Nat
  g : Nat
  h : Nat

/-- Initial hash value `H⁽⁰⁾`. -/
def shaIV : SHAState :=
  ⟨1779033703, 3144134277, 1013904242, 2773480762,
   1359893119, 2600822924, 528734635, 1541459225⟩

/-- The 64 round constants `K`. -/
def shaK : List Nat :=
  [1116352408, 1899447441, 3049323471, 3921009573, 961987163,
   1508970993, 2453635748, 2870763221, 3624381080, 310598401,
   607225278, 1426881987, 1925078388, 2162078206, 2614888103,
   3248222580, 3835390401, 4022224774, 264347078, 604807628,
   770255983, 1249150122, 1555081692, 1996064986, 2554220882,
   2821834349, 2952996808, 3210313671, 3336571891, 3584528711,
   113926993, 338241895, 666307205, 773529912, 1294757372,
   1396182291, 1695183700, 1986661051, 2177026350, 2456956037,
   2730485921, 2820302411, 3259730800, 3345764771, 3516065817,
   3600352804, 4094571909, 275423344, 430227734, 506948616,
   659060556, 883997877, 958139571, 1322822218, 1537002063,
   1747873779, 1955562222, 2024104815, 2227730452, 2361852424,
   2428436474, 2756734187, 3204031479, 3329325298]

/-- Big-endian bytes of a 32-bit word. -/
def u32be (x : Nat) : List Nat :=
  [x / 2 ^ 24 % 256, x / 2 ^ 16 % 256, x / 2 ^ 8 % 256, x % 256]

/-- Big-endian bytes of a 64-bit word. -/
def u64be (x : Nat) : List Nat :=
  [x / 2 ^ 56 % 256, x / 2 ^ 48 % 256, x / 2 ^ 40 % 256, x / 2 ^ 32 % 256,
   x / 2 ^ 24 % 256, x / 2 ^ 16 % 256, x / 2 ^ 8 % 256, x % 256]

/-- FIPS 180-4 §5.1.1 padding: `0x80`, zeros to 56 mod 64, then the bit length
as a 64-bit big-endian integer. -/
def shaPad (msg : List Nat) : List Nat :=
  msg ++ 128 :: List.replicate ((120 - (msg.length + 1) % 64) % 64) 0
    ++ u64be (msg.length * 8 % 2 ^ 64)

/-- Fuelled 64-byte chunking loop (structural recursion so that the kernel
can evaluate digests). -/
def shaBlocksF : Nat → List Nat → List (List Nat)
  | 0, _ => []
  | _, [] => []
  | fuel + 1, x :: xs => (x :: xs).take 64 :: shaBlocksF fuel ((x :: xs).drop 64)

/-- Split the padded message into 64-byte blocks (each step consumes at least
one byte, so the length of the list is enough fuel). -/
def shaBlocks (l : List Nat) : List (List Nat) := shaBlocksF l.length l

/-- The 16 big-endian message words of one 64-byte block. -/
def blockWords : List Nat → List Nat
  | b0 :: b1 :: b2 :: b3 :: rest =>
    (b0 * 2 ^ 24 + b1 * 2 ^ 16 + b2 * 2 ^ 8 + b3) :: blockWords rest
  | _ => []

/-- One step of the §6.2 message-schedule extension: append
`σ₁(w[t−2]) + w[t−7] + σ₀(w[t−15]) + w[t−16]`. -/
def scheduleStep (ws : List Nat) : List Nat :=
  let n := ws.length
  ws ++ [(ssig1 (ws.getD (n - 2) 0) + ws.getD (n - 7) 0
          + ssig0 (ws.getD (n - 15) 0) + ws.getD (n - 16) 0) % W32]

/-- Extend the 16 message words to the full 64-word schedule. -/
def schedule (ws : List Nat) : Nat → List Nat
  | 0 => ws
  | k + 1 => schedule (scheduleStep ws) k

/-- One of the 64 compression rounds. -/
def shaRound (st : SHAState) (kc w : Nat) : SHAState :=
  let t1 := (st.h + bsig1 st.e + shaCh st.e st.f st.g + kc + w) % W32
  let t2 := (bsig0 st.a + shaMaj st.a st.b st.c) % W32
  ⟨(t1 + t2) % W32, st.a, st.b, st.c, (st.d + t1) % W32, st.e, st.f, st.g⟩

/-- Run the rounds over the paired constants and schedule words. -/
def shaRounds : List Nat → List Nat → SHAState → SHAState
  | kc :: ks, w :: ws, st => shaRounds ks ws (shaRound st kc w)
  | _, _, st => st

/-- Compress one 64-byte block into the running state (§6.2.2 step 4). -/
def shaCompress (st : SHAState) (block : List Nat) : SHAState :=
  let r := shaRounds shaK (schedule (blockWords block) 48) st
  ⟨(st.a + r.a) % W32, (st.b + r.b) % W32, (st.c + r.c) % W32, (st.d + r.d) % W32,
   (st.e + r.e) % W32, (st.f + r.f) % W32, (st.g + r.g) % W32, (st.h + r.h) % W32⟩

/-- `sha256.Sum256`: the 32 digest bytes of a byte string. -/
def sha256 (msg : List Nat) : List Nat :=
  let st := (shaBlocks (shaPad msg)).foldl shaCompress shaIV
  u32be st.a ++ u32be st.b ++ u32be st.c ++ u32be st.d
    ++ u32be st.e ++ u32be st.f ++ u32be st.g ++ u32be st.h

/-! ### `HumanHash` (`encoding.go`) -/

/-- The digit-selection loop of `HumanHash`: walk the digest, skip bytes of
value 250 or more (rejection sampling), keep the first `n` accepted bytes.
Running out of digest bytes models the unguarded `hashed[j]` index running
past the end of the 32-byte array — a Go panic. -/
def digitsGo : List Nat → Nat → Option (List Nat)
  | _, 0 => some []
  | [], _ + 1 => none
  | v :: rest, n + 1 =>
    if 250 ≤ v then digitsGo rest (n + 1)
    else (digitsGo rest n).map (fun ds => v :: ds)

/-- Keep the first `n` digest bytes below 250 (see `digitsGo`). -/
def digitsTake (n : Nat) (l : List Nat) : Option (List Nat) := digitsGo l n

/-- The final array shuffle of `HumanHash`: `result[7] = result[3]` then
`result[3] = '-'`, turning seven digit characters into `DDD-DDDD`. -/
def hhArrange : List Char → List Char
  | [c0, c1, c2, c3, c4, c5, c6] => [c0, c1, c2, '-', c4, c5, c6, c3]
  | l => l

/-- `HumanHash(data)`: SHA-256 the input, keep the first seven digest bytes
below 250, reduce each mod 10 to a digit character, shuffle to `DDD-DDDD`.
`none` models the index-out-of-range panic when fewer than seven digest
bytes are below 250. -/
def humanHash (data : List Nat) : Option (List Char) :=
  (digitsTake 7 (sha256 data)).map
    (fun ds => hhArrange (ds.map (fun v => Char.ofNat (48 + v % 10))))

/-- Bytes of an ASCII Go string. -/
def strBytes (s : List Char) : List Nat := s.map Char.toNat

/-! ## The discovery engine (`tsnet/tsnet.go`) -/

/-- `2^31`, bound of Go's `int32` epoch counter. -/
def I32BOUND : Int := 2147483648

/-- Wrapping 32-bit signed addition result: reduce an integer into
`[-2^31, 2^31)` the way Go `int32` overflow does. -/
def wrap32 (i : Int) : Int := (i + I32BOUND) % (2 * I32BOUND) - I32BOUND

/-- `epochStopMarker = -999`: the sentinel `Stop()` stores into the epoch. -/
def epochStopMarker : Int := -999

/-- `Peer`: the registry key — IP, declared name, transport-encoded public
key. -/
structure Peer where
  ip : String
  name : String
  publicKey : String
deriving DecidableEq, Repr

/-- `PeerData`: the mutable value attached to a peer. -/
structure PeerData where
  humanHash : String
  port : Nat
  epoch : Int
  lastSeen : Nat
deriving DecidableEq, Repr

/-- `ConnectionStatus`. -/
inductive ConnectionStatus where
  | connecting
  | connSent
  | connected
  | disconnected
  | failed
deriving DecidableEq, Repr

/-- `Connection`: an in-progress pairing attempt; the `*net.UDPConn` handle is
an abstract token. -/
structure Connection where
  peer : Peer
  status : ConnectionStatus
  createdAt : Nat
  conn : Option Nat
deriving DecidableEq, Repr

/-- A UDP address (IP and port). -/
structure Addr where
  ip : String
  port : Nat
deriving DecidableEq, Repr

/-- The engine state touched by the multicast receive loop: the `Peers`
registry and the atomic epoch counter (negative means stopped). -/
structure NetState where
  peers : SMap Peer PeerData
  epoch : Int

/-- `Server.Stop()`: a no-op when already stopped (`epoch < 0`), otherwise
store the stop marker.  Socket teardown is I/O and outside the model. -/
def serverStop (s : NetState) : NetState :=
  if s.epoch < 0 then s else { s with epoch := epochStopMarker }

/-- What one iteration of `runMulticastReceive` did, for the record. -/
inductive RecvEvent where
  | ignoredOwn
  | decodeError
  | selfStop
  | selfWarn
  | knownUpdate
  | newPeer
  | panicked
deriving DecidableEq, Repr

/-- The fingerprint the new-peer branch computes: decode the peer's public key
(`IdentityPublicKeyString`), feed the bytes — `nil` on decode failure — to
`HumanHash`, then overwrite with `"BAD-PKEY"` when the decode had failed.
`none` propagates a `HumanHash` panic. -/
def newPeerHumanHash (pk : String) : Option String :=
  match identityPublicKeyString pk.data with
  | .ok bytes => (humanHash bytes).map String.mk
  | .error _ => (humanHash []).map (fun _ => "BAD-PKEY")

/-- One iteration of `runMulticastReceive` on a received datagram, after the
blocking read returned: `srcAddr` is the datagram's source address, `decoded`
the outcome of `MCastMessageDecode` on its bytes (`none` for a scan error —
the `fmt.Sscanf` parse itself is I/O-format plumbing and enters the model as
this outcome), `now` the current time.  Mirrors, in order: the own-packet
address filter, the decode-error drop, the self-collision check against `us`
(stop when the announced epoch is at most ours, warn otherwise), the
known-peer update (carrying the cached fingerprint over), and the new-peer
insert. -/
def handleDatagram (us : Peer) (ourAddr : Addr) (s : NetState) (srcAddr : Addr)
    (decoded : Option (String × String × Int)) (now : Nat) : NetState × RecvEvent :=
  if srcAddr = ourAddr then (s, .ignoredOwn)
  else
    match decoded with
    | none => (s, .decodeError)
    | some (name, pubKey, theirEpoch) =>
      let data : PeerData := ⟨"", srcAddr.port, theirEpoch, now⟩
      let peer : Peer := ⟨srcAddr.ip, name, pubKey⟩
      if peer = us then
        if theirEpoch ≤ s.epoch then (serverStop s, .selfStop)
        else (s, .selfWarn)
      else
        match s.peers.get peer with
        | some v =>
          ({ s with peers := s.peers.set peer { data with humanHash := v.humanHash } },
           .knownUpdate)
        | none =>
          match newPeerHumanHash pubKey with
          | some hh =>
            ({ s with peers := s.peers.set peer { data with humanHash := hh } }, .newPeer)
          | none => (s, .panicked)

/-- A whole run of the multicast receive loop: fold `handleDatagram` over a
list of received datagrams (source address, decode outcome, arrival time). -/
def recvRun (us : Peer) (ourAddr : Addr) (s : NetState)
    (inputs : List (Addr × Option (String × String × Int) × Nat)) : NetState :=
  inputs.foldl (fun st i => (handleDatagram us ourAddr st i.1 i.2.1 i.2.2).1) s

/-- What one advertiser tick did. -/
inductive AdvOutcome where
  | sends (epoch : Int)
  | stopsNoSend
  | panics
deriving DecidableEq, Repr

/-- One `runAdv` ticker iteration, starting from the current epoch counter
value `e`: `s.epoch.Add(1)` with `int32` wraparound, panic when the result
fell below the stop marker (the "ticks wrapped" guard), silent exit without
sending when it is negative (engine stopped), otherwise send a beacon
carrying the new epoch. -/
def advTick (e : Int) : AdvOutcome :=
  let newEpoch := wrap32 (e + 1)
  if newEpoch < epochStopMarker then .panics
  else if newEpoch < 0 then .stopsNoSend
  else .sends newEpoch

/-- The registries `ConnectToPeer` touches. -/
structure ConnState where
  peers : SMap Peer PeerData
  connections : SMap Peer Connection

/-- `Server.ConnectToPeer(peer)`: store a `Connecting` entry; look the peer up
in `Peers` (error when absent); dial the unicast socket (`dial` is the I/O
outcome, a handle or an error); on success re-`Set` the entry as `ConnSent`
with the handle; write the request (`write` is the I/O outcome); on a write
error close the socket, delete the entry, and report the error. -/
def connectToPeer (s : ConnState) (peer : Peer) (now : Nat)
    (dial : Except String Nat) (write : Nat → Except String Unit) :
    ConnState × Except String Unit :=
  let conn : Connection := ⟨peer, .connecting, now, none⟩
  let cs1 := s.connections.set peer conn
  match s.peers.get peer with
  | none => ({ s with connections := cs1 }, .error "peer not found in peer list")
  | some _ =>
    match dial with
    | .error e => ({ s with connections := cs1 }, .error e)
    | .ok udpConn =>
      let conn2 : Connection := { conn with conn := some udpConn, status := .connSent }
      let cs2 := cs1.set peer conn2
      match write udpConn with
      | .error e => ({ s with connections := cs2.delete [peer] }, .error e)
      | .ok _ => ({ s with connections := cs2 }, .ok ())

/-! ## Registry lemmas -/

theorem version_applySOp {K V : Type} [DecidableEq K] (s : SMap K V) (op : SOp K V) :
    (applySOp s op).version = (s.version + 1) % U64MOD := by
  cases op <;> rfl

theorem version_applySOps {K V : Type} [DecidableEq K] (ops : List (SOp K V)) :
    ∀ s : SMap K V, s.version < U64MOD →
      (applySOps s ops).version = (s.version + ops.length) % U64MOD := by
  induction ops with
  | nil =>
    intro s hv
    simpa [applySOps] using (Nat.mod_eq_of_lt hv).symm
  | cons op rest ih =>
    intro s hv
    have hstep : (applySOp s op).version = (s.version + 1) % U64MOD := version_applySOp s op
    have hlt : (applySOp s op).version < U64MOD := by
      rw [hstep]; exact Nat.mod_lt _ (by decide)
    calc (applySOps s (op :: rest)).version
        = (applySOps (applySOp s op) rest).version := rfl
      _ = ((applySOp s op).version + rest.length) % U64MOD := ih _ hlt
      _ = ((s.version + 1) % U64MOD + rest.length) % U64MOD := by rw [hstep]
      _ = (s.version + 1 + rest.length) % U64MOD := Nat.mod_add_mod _ _ _
      _ = (s.version + (op :: rest).length) % U64MOD := by
          simp [List.length_cons]; ring_nf

theorem mem_insSorted {K : Type} (le : K → K → Bool) (a x : K) :
    ∀ l : List K, x ∈ insSorted le a l ↔ x = a ∨ x ∈ l := by
  intro l
  induction l with
  | nil => simp [insSorted]
  | cons b rest ih =>
    by_cases h : le a b
    · simp [insSorted, h]
    · simp [insSorted, h, ih]
      tauto

theorem mem_sortWith {K : Type} (le : K → K → Bool) (x : K) :
    ∀ l : List K, x ∈ sortWith le l ↔ x ∈ l := by
  intro l
  induction l with
  | nil => simp [sortWith]
  | cons a rest ih => simp [sortWith, mem_insSorted, ih]

theorem get_none_iff {K V : Type} [DecidableEq K] (s : SMap K V) (k : K) :
    s.get k = none ↔ ∀ p ∈ s.entries, p.1 ≠ k := by
  simp [SMap.get, List.find?_eq_none]

/-- C3.  For every registry and every finite sequence of N mutating calls (any
mix of `Set`, `MultiSet`, `Delete`, `Clear`), `Version()` after the sequence
equals the value before plus exactly N — one increment per call, however many
entries a `MultiSet` or `Delete` touches and whether or not deleted keys were
present — and two `Version()` reads with zero intervening mutations return
equal values.  (The version is a `uint64`; the hypothesis keeps the run below
its wraparound point, which any physically realizable run is.) -/
theorem c3_version_increments {K V : Type} [DecidableEq K]
    (ops : List (SOp K V)) (s : SMap K V)
    (h : s.version + ops.length < U64MOD) :
    (applySOps s ops).version = s.version + ops.length
    ∧ (applySOps s []).version = s.version := by
  refine ⟨?_, rfl⟩
  have hv : s.version < U64MOD := Nat.lt_of_le_of_lt (Nat.le_add_right _ _) h
  rw [version_applySOps ops s hv]
  exact Nat.mod_eq_of_lt h

/-- Closed witness for `c3_version_increments`: four mutating calls (a `Set`,
a three-entry `MultiSet`, a `Delete` of one present and one absent key, and a
`Clear`) on a registry at version 1 leave it at version 5. -/
theorem c3_version_increments_witness :
    (applySOps ((SMap.new Nat Nat).set 1 10)
        [.set 2 20, .multiSet [(3, 30), (4, 40), (5, 50)], .del [3, 99], .clear]).version
      = 1 + 4 := by
  exact (c3_version_increments _ _ (by decide)).1

/-- C4.  Sorted iteration (`AllSorted`, `NaturalSort`) snapshots the keys and
re-reads each value lazily per key: a key whose entry is gone by the time its
own value lookup runs is silently skipped and never yielded, even if it was
present at snapshot time; and a key absent at snapshot time is never yielded,
even if an entry for it is added later.  (`mapAt k` is the registry as it
stands at the instant key `k`'s re-read executes.) -/
theorem c4_sorted_iteration_skips {K V : Type} [DecidableEq K] [LinearOrder K]
    (less : K → K → Bool) (s : SMap K V) (mapAt : K → SMap K V) (k : K) :
    ((mapAt k).get k = none →
      (∀ v, (k, v) ∉ allSortedRun less s mapAt) ∧ (∀ v, (k, v) ∉ naturalSortRun s mapAt))
    ∧ (s.get k = none →
      (∀ v, (k, v) ∉ allSortedRun less s mapAt) ∧ (∀ v, (k, v) ∉ naturalSortRun s mapAt)) := by
  constructor
  · intro hdel
    constructor <;>
    · intro v hmem
      simp only [allSortedRun, naturalSortRun, List.mem_filterMap] at hmem
      obtain ⟨k', _, hk'⟩ := hmem
      cases hget : (mapAt k').get k' with
      | none => rw [hget] at hk'; simp at hk'
      | some w =>
        rw [hget] at hk'
        have hk2 : some (k', w) = some (k, v) := hk'
        have hk : k' = k := congrArg Prod.fst (Option.some.inj hk2)
        rw [hk] at hget
        rw [hdel] at hget
        exact Option.noConfusion hget
  · intro habs
    constructor <;>
    · intro v hmem
      simp only [allSortedRun, naturalSortRun, List.mem_filterMap] at hmem
      obtain ⟨k', hk'mem, hk'⟩ := hmem
      cases hget : (mapAt k').get k' with
      | none => rw [hget] at hk'; simp at hk'
      | some w =>
        rw [hget] at hk'
        have hk2 : some (k', w) = some (k, v) := hk'
        have hk : k' = k := congrArg Prod.fst (Option.some.inj hk2)
        rw [mem_sortWith, hk] at hk'mem
        obtain ⟨p, hp, hp1⟩ := List.mem_map.mp hk'mem
        exact (get_none_iff s k).mp habs p hp hp1

/-- Closed witness for `c4_sorted_iteration_skips`: registry `{1,2,3}`, key 2
deleted before its re-read executes (its lookup state no longer holds it) —
key 2 is never yielded by either sorted iteration. -/
theorem c4_sorted_iteration_skips_witness :
    (∀ v, (2, v) ∉ allSortedRun (fun a b => decide (a < b))
        (⟨[(1, 10), (2, 20), (3, 30)], 3⟩ : SMap Nat Nat)
        (fun k => if k = 2 then ⟨[(1, 10), (3, 30)], 4⟩ else ⟨[(1, 10), (2, 20), (3, 30)], 3⟩))
    ∧ (∀ v, (2, v) ∉ naturalSortRun
        (⟨[(1, 10), (2, 20), (3, 30)], 3⟩ : SMap Nat Nat)
        (fun k => if k = 2 then ⟨[(1, 10), (3, 30)], 4⟩ else ⟨[(1, 10), (2, 20), (3, 30)], 3⟩)) :=
  (c4_sorted_iteration_skips (fun a b => decide (a < b)) _ _ 2).1 (by decide)

/-! ## Role-tag lemmas (C5) -/

theorem decodeBytes_tag_mismatch (tag s : List Char) (h : s.take tag.length ≠ tag) :
    decodeBytes tag s = .error (.encodingErr "invalid prefix") := by
  simp [decodeBytes, h]

/-- C5.  Every string lacking the expected short ASCII role tag is rejected by
the decode operation: `IdentityPublicKeyString` (signing public keys) and
`StringToPublicKey` (key-agreement public keys) both require the `p.` tag and
fail with an error on any string not starting with it — in particular a
private-key-tagged (`k.`) or signed-envelope-tagged (`s.`) string is rejected
when decoded as a public key. -/
theorem c5_tag_required (s : List Char) (h : s.take publicKeyTag.length ≠ publicKeyTag) :
    isErr (identityPublicKeyString s) = true
    ∧ isErr (stringToPublicKey s) = true
    ∧ (∀ body, isErr (identityPublicKeyString (privateKeyTag ++ body)) = true)
    ∧ (∀ body, isErr (identityPublicKeyString (signedTag ++ body)) = true)
    ∧ (∀ body, isErr (stringToPublicKey (privateKeyTag ++ body)) = true)
    ∧ (∀ body, isErr (stringToPublicKey (signedTag ++ body)) = true) := by
  have hmain : ∀ t : List Char, t.take publicKeyTag.length ≠ publicKeyTag →
      isErr (identityPublicKeyString t) = true ∧ isErr (stringToPublicKey t) = true := by
    intro t ht
    have hd : decodeBytes publicKeyTag t = .error (.encodingErr "invalid prefix") :=
      decodeBytes_tag_mismatch _ _ ht
    constructor
    · simp [identityPublicKeyString, hd, isErr]
    · simp only [stringToPublicKey, hd]; rfl
  have hk : ∀ body : List Char,
      (privateKeyTag ++ body).take publicKeyTag.length ≠ publicKeyTag := by
    intro body hcontra
    have : 'k' = 'p' := congrArg (fun l => l.headD ' ') hcontra
    simp at this
  have hs : ∀ body : List Char,
      (signedTag ++ body).take publicKeyTag.length ≠ publicKeyTag := by
    intro body hcontra
    have : 's' = 'p' := congrArg (fun l => l.headD ' ') hcontra
    simp at this
  exact ⟨(hmain s h).1, (hmain s h).2,
    fun body => (hmain _ (hk body)).1, fun body => (hmain _ (hs body)).1,
    fun body => (hmain _ (hk body)).2, fun body => (hmain _ (hs body)).2⟩

/-- Closed witness for `c5_tag_required`: the private-key-tagged string
`"k.AAAA"` is rejected by both public-key decoders. -/
theorem c5_tag_required_witness :
    isErr (identityPublicKeyString "k.AAAA".data) = true
    ∧ isErr (stringToPublicKey "k.AAAA".data) = true :=
  ⟨(c5_tag_required "k.AAAA".data (by decide)).1,
   (c5_tag_required "k.AAAA".data (by decide)).2.1⟩

/-! ## Base64 and signed-envelope lemmas (C6) -/

theorem b64Index_b64Char_fin : ∀ i : Fin 64, b64Index (b64Char i.val) = some i.val := by
  decide

theorem b64Index_b64Char (i : Nat) (h : i < 64) : b64Index (b64Char i) = some i :=
  b64Index_b64Char_fin ⟨i, h⟩

theorem b64Char_ne_slash (i : Nat) : b64Char i ≠ '/' := by
  by_cases h : i < 64
  · exact (by decide : ∀ j : Fin 64, b64Char j.val ≠ '/') ⟨i, h⟩
  · have hlen : b64Alphabet.length = 64 := by decide
    unfold b64Char
    rw [List.getD_eq_default _ _ (by omega)]
    decide

theorem mem_b64Encode : ∀ (bs : List Nat) (c : Char), c ∈ b64Encode bs → ∃ i, c = b64Char i
  | [], c, h => by simp [b64Encode] at h
  | [b0], c, h => by
    simp only [b64Encode, List.mem_cons, List.not_mem_nil, or_false] at h
    rcases h with h | h
    · exact ⟨_, h⟩
    · exact ⟨_, h⟩
  | [b0, b1], c, h => by
    simp only [b64Encode, List.mem_cons, List.not_mem_nil, or_false] at h
    rcases h with h | h | h
    · exact ⟨_, h⟩
    · exact ⟨_, h⟩
    · exact ⟨_, h⟩
  | b0 :: b1 :: b2 :: rest, c, h => by
    simp only [b64Encode, List.mem_cons] at h
    rcases h with h | h | h | h | h
    · exact ⟨_, h⟩
    · exact ⟨_, h⟩
    · exact ⟨_, h⟩
    · exact ⟨_, h⟩
    · exact mem_b64Encode rest c h

theorem b64Encode_no_slash (bs : List Nat) (c : Char) (hc : c ∈ b64Encode bs) : c ≠ '/' := by
  obtain ⟨i, rfl⟩ := mem_b64Encode bs c hc
  exact b64Char_ne_slash i

theorem b64_roundtrip : ∀ (bs : List Nat), (∀ b ∈ bs, b < 256) →
    b64Decode (b64Encode bs) = .ok bs
  | [], _ => by simp [b64Encode, b64Decode]
  | [b0], h => by
    have h0 : b0 < 256 := h b0 (by simp)
    have e0 := b64Index_b64Char (b0 / 4) (by omega)
    have e1 := b64Index_b64Char (b0 % 4 * 16) (by omega)
    simp only [b64Encode, b64Decode, e0, e1]
    have : b0 / 4 * 4 + b0 % 4 * 16 / 16 = b0 := by omega
    rw [this]
  | [b0, b1], h => by
    have h0 : b0 < 256 := h b0 (by simp)
    have h1 : b1 < 256 := h b1 (by simp)
    have e0 := b64Index_b64Char (b0 / 4) (by omega)
    have e1 := b64Index_b64Char (b0 % 4 * 16 + b1 / 16) (by omega)
    have e2 := b64Index_b64Char (b1 % 16 * 4) (by omega)
    simp only [b64Encode, b64Decode, e0, e1, e2]
    have g0 : b0 / 4 * 4 + (b0 % 4 * 16 + b1 / 16) / 16 = b0 := by omega
    have g1 : (b0 % 4 * 16 + b1 / 16) % 16 * 16 + b1 % 16 * 4 / 4 = b1 := by omega
    rw [g0, g1]
  | b0 :: b1 :: b2 :: rest, h => by
    have h0 : b0 < 256 := h b0 (by simp)
    have h1 : b1 < 256 := h b1 (by simp)
    have h2 : b2 < 256 := h b2 (by simp)
    have ih : b64Decode (b64Encode rest) = .ok rest :=
      b64_roundtrip rest (fun b hb => h b (by simp [hb]))
    have e0 := b64Index_b64Char (b0 / 4) (by omega)
    have e1 := b64Index_b64Char (b0 % 4 * 16 + b1 / 16) (by omega)
    have e2 := b64Index_b64Char (b1 % 16 * 4 + b2 / 64) (by omega)
    have e3 := b64Index_b64Char (b2 % 64) (by omega)
    have g0 : b0 / 4 * 4 + (b0 % 4 * 16 + b1 / 16) / 16 = b0 := by omega
    have g1 : (b0 % 4 * 16 + b1 / 16) % 16 * 16 + (b1 % 16 * 4 + b2 / 64) / 4 = b1 := by omega
    have g2 : (b1 % 16 * 4 + b2 / 64) % 4 * 64 + b2 % 64 = b2 := by omega
    match hrest : b64Encode rest with
    | [] =>
      rw [hrest] at ih
      simp only [b64Encode, hrest, b64Decode, e0, e1, e2, e3]
      rw [show b64Decode [] = .ok [] from rfl] at ih
      simp only [g0, g1, g2]
      have hre : ([] : List Nat) = rest := by injection ih
      rw [← hre]
    | c :: cs =>
      rw [hrest] at ih
      simp only [b64Encode, hrest]
      have hd : b64Decode (b64Char (b0 / 4) :: b64Char (b0 % 4 * 16 + b1 / 16) ::
          b64Char (b1 % 16 * 4 + b2 / 64) :: b64Char (b2 % 64) :: c :: cs)
          = match b64Index (b64Char (b0 / 4)), b64Index (b64Char (b0 % 4 * 16 + b1 / 16)),
              b64Index (b64Char (b1 % 16 * 4 + b2 / 64)), b64Index (b64Char (b2 % 64)),
              b64Decode (c :: cs) with
            | some i0, some i1, some i2, some i3, .ok tail =>
              .ok ((i0 * 4 + i1 / 16) :: (i1 % 16 * 16 + i2 / 4) :: (i2 % 4 * 64 + i3) :: tail)
            | _, _, _, _, .error e => .error e
            | _, _, _, _, _ => .error (.encodingErr "illegal base64 data") := rfl
      rw [hd, e0, e1, e2, e3, ih]
      simp only [g0, g1, g2]

theorem splitFirstSlash_none (s : List Char) (h : '/' ∉ s) : splitFirstSlash s = none := by
  induction s with
  | nil => rfl
  | cons c rest ih =>
    have hc : ¬ (c = '/') := fun hc => h (by simp [hc])
    simp [splitFirstSlash, hc, ih (fun hr => h (List.mem_cons_of_mem c hr))]

theorem splitFirstSlash_append (xs ys : List Char) (h : '/' ∉ xs) :
    splitFirstSlash (xs ++ '/' :: ys) = some (xs, ys) := by
  induction xs with
  | nil => simp [splitFirstSlash]
  | cons c rest ih =>
    have hc : ¬ (c = '/') := fun hc => h (by simp [hc])
    simp [splitFirstSlash, hc, ih (fun hr => h (List.mem_cons_of_mem c hr))]

theorem decodeBytes_tag_strip (tag rest : List Char) :
    decodeBytes tag (tag ++ rest) = b64Decode rest := by
  have hlen : ¬ (tag ++ rest).length < tag.length := by
    simp [List.length_append]
  have htake : (tag ++ rest).take tag.length = tag := List.take_left tag rest
  have hdrop : (tag ++ rest).drop tag.length = rest := List.drop_left tag rest
  simp [decodeBytes, hlen, htake, hdrop]

/-- C6.  Signed-message round trip and rejection, over the abstract Ed25519
primitive `E` (the Go standard library's `ed25519.Sign`/`ed25519.Verify`):
(1) whenever the primitive accepts the signature the identity produces for a
message — the defining property of the real Ed25519 pair —
`VerifySignedMessage (SignMessage m) pub` succeeds and returns exactly `m`;
(2) a string with no envelope separator (malformed envelope) always fails
with a signature error; (3) `VerifySignedMessage` releases a message only
when the cryptographic check passed on it, so whenever the check fails — in
particular under a wrong public key or a flipped byte, which Ed25519 rejects
— no message is ever returned; and (4) when the envelope does split at a
separator but either half fails to decode — an invalid base64 body or a
missing/wrong `s.` role tag on the message half — the call fails with an
error.  (The byte bounds say the message and signature are byte strings,
which Go's `[]byte` guarantees.) -/
theorem c6_sign_verify_roundtrip (E : SigScheme) (id : SIdentity) (m pub : List Nat)
    (hm : ∀ b ∈ m, b < 256)
    (hs : ∀ b ∈ E.sign id.privateKey m, b < 256)
    (hv : E.verify pub m (E.sign id.privateKey m) = true) :
    verifySignedMessage E (signMessage E id m) pub = .ok m
    ∧ (∀ s : List Char, '/' ∉ s → isErr (verifySignedMessage E s pub) = true)
    ∧ (∀ (s : List Char) (m' : List Nat), verifySignedMessage E s pub = .ok m' →
        ∃ sig, E.verify pub m' sig = true)
    ∧ (∀ (s p0 p1 : List Char), splitFirstSlash s = some (p0, p1) →
        isErr (decodeBytes signedTag p0) = true ∨ isErr (decodeBytes [] p1) = true →
        isErr (verifySignedMessage E s pub) = true) := by
  refine ⟨?_, ?_, ?_, ?_⟩
  · have hnoslash : '/' ∉ encodeBytes signedTag m := by
      intro hmem
      simp only [encodeBytes, signedTag, List.mem_append, List.mem_cons] at hmem
      rcases hmem with (h | h) | h
      · exact absurd h.symm (by decide)
      · rcases h with h | h
        · exact absurd h.symm (by decide)
        · simp at h
      · exact b64Encode_no_slash m '/' h rfl
    have hsplit : splitFirstSlash (signMessage E id m)
        = some (encodeBytes signedTag m, encodeBytes [] (E.sign id.privateKey m)) :=
      splitFirstSlash_append _ _ hnoslash
    have hdec0 : decodeBytes signedTag (encodeBytes signedTag m) = .ok m := by
      rw [encodeBytes, decodeBytes_tag_strip]
      exact b64_roundtrip m hm
    have hdec1 : decodeBytes [] (encodeBytes [] (E.sign id.privateKey m))
        = .ok (E.sign id.privateKey m) := by
      rw [encodeBytes, decodeBytes_tag_strip]
      exact b64_roundtrip _ hs
    simp [verifySignedMessage, hsplit, hdec0, hdec1, hv]
  · intro s hslash
    rw [verifySignedMessage, splitFirstSlash_none s hslash]
    rfl
  · intro s m' hok
    unfold verifySignedMessage at hok
    split at hok
    · exact absurd hok (by simp)
    · split at hok
      · exact absurd hok (by simp)
      · split at hok
        · exact absurd hok (by simp)
        · split at hok
          · rename_i hver
            cases hok
            exact ⟨_, hver⟩
          · exact absurd hok (by simp)
  · intro s p0 p1 hsp hbad
    unfold verifySignedMessage
    rw [hsp]
    cases hd0 : decodeBytes signedTag p0 with
    | error e => simp [hd0, isErr]
    | ok message =>
      cases hd1 : decodeBytes [] p1 with
      | error e => simp [hd0, hd1, isErr]
      | ok signature =>
        rw [hd0, hd1] at hbad
        rcases hbad with hbad | hbad <;> exact absurd hbad (by simp [isErr])

/-- Closed witness for `c6_sign_verify_roundtrip`: a toy instantiation of the
abstract primitive (`sign priv m = priv ++ m`, `verify pub m sig` checks
`sig = pub ++ m`) satisfying the correctness hypothesis at a concrete keypair
and message; the envelope round trip returns exactly the message. -/
theorem c6_sign_verify_roundtrip_witness :
    verifySignedMessage
        ⟨fun priv msg => priv ++ msg, fun pub msg sig => sig == pub ++ msg⟩
        (signMessage ⟨fun priv msg => priv ++ msg, fun pub msg sig => sig == pub ++ msg⟩
          ⟨[7], [7]⟩ [2, 3])
        [7]
      = .ok [2, 3] :=
  (c6_sign_verify_roundtrip
    ⟨fun priv msg => priv ++ msg, fun pub msg sig => sig == pub ++ msg⟩
    ⟨[7], [7]⟩ [2, 3] [7] (by decide) (by decide) (by decide)).1

/-! ## HumanHash lemmas (C7, C10) -/

theorem digitsGo_eq (l : List Nat) : ∀ n : Nat,
    digitsGo l n =
      if n ≤ (l.filter (fun v => decide (v < 250))).length
      then some ((l.filter (fun v => decide (v < 250))).take n)
      else none := by
  induction l with
  | nil =>
    intro n
    cases n with
    | zero => simp [digitsGo]
    | succ k => simp [digitsGo]
  | cons v rest ih =>
    intro n
    cases n with
    | zero => simp [digitsGo]
    | succ k =>
      have hstep : digitsGo (v :: rest) (k + 1)
          = if 250 ≤ v then digitsGo rest (k + 1)
            else (digitsGo rest k).map (fun ds => v :: ds) := rfl
      rw [hstep]
      by_cases hv : 250 ≤ v
      · have hb : decide (v < 250) = false := decide_eq_false (by omega)
        have hfilter : (v :: rest).filter (fun w => decide (w < 250))
            = rest.filter (fun w => decide (w < 250)) := by
          rw [List.filter_cons, hb]
          simp
        rw [if_pos hv, hfilter]
        exact ih (k + 1)
      · have hb : decide (v < 250) = true := decide_eq_true (by omega)
        have hfilter : (v :: rest).filter (fun w => decide (w < 250))
            = v :: rest.filter (fun w => decide (w < 250)) := by
          rw [List.filter_cons, hb]
          simp
        rw [if_neg hv, hfilter, ih k]
        by_cases hk : k ≤ (rest.filter (fun v => decide (v < 250))).length
        · rw [if_pos hk, if_pos (by simp only [List.length_cons]; omega)]
          simp [List.take_succ_cons]
        · rw [if_neg hk, if_neg (by simp only [List.length_cons]; omega)]
          simp

theorem sha256_length (x : List Nat) : (sha256 x).length = 32 := by
  simp [sha256, u32be]

theorem list_len7 {α : Type} (l : List α) (h : l.length = 7) :
    ∃ a0 a1 a2 a3 a4 a5 a6, l = [a0, a1, a2, a3, a4, a5, a6] := by
  rcases l with _ | ⟨a0, _ | ⟨a1, _ | ⟨a2, _ | ⟨a3, _ | ⟨a4, _ | ⟨a5, _ | ⟨a6, _ | ⟨a7, t⟩⟩⟩⟩⟩⟩⟩⟩ <;>
    simp_all

theorem digit_char_isDigit (d : Nat) (h : d < 10) : (Char.ofNat (48 + d)).isDigit = true := by
  interval_cases d <;> decide

/-- C7.  `HumanHash` is deterministic — two calls on identical input yield the
identical result — and whenever it returns, the result is an 8-character
string of shape `DDD-DDDD`: a hyphen at index 3 and a decimal digit at every
other index, where the seven digits are, in emission order, the first seven
SHA-256 digest bytes below 250 (bytes of value 250 or more are discarded by
rejection sampling), each reduced mod 10. -/
theorem c7_humanhash_shape (x : List Nat) (r : List Char) (hr : humanHash x = some r) :
    (∀ y, y = x → humanHash y = some r)
    ∧ r.length = 8
    ∧ r.getD 3 ' ' = '-'
    ∧ (∀ i, i < 8 → i ≠ 3 → (r.getD i ' ').isDigit = true)
    ∧ (∃ ds, ds = ((sha256 x).filter (fun v => decide (v < 250))).take 7
        ∧ ds.length = 7
        ∧ (∀ d ∈ ds, d < 250)
        ∧ r = hhArrange (ds.map (fun v => Char.ofNat (48 + v % 10)))) := by
  obtain ⟨ds, hds⟩ :
      ∃ ds, ds = ((sha256 x).filter (fun v => decide (v < 250))).take 7 := ⟨_, rfl⟩
  have hdt := digitsGo_eq (sha256 x) 7
  unfold humanHash digitsTake at hr
  rw [hdt] at hr
  by_cases hlen : 7 ≤ ((sha256 x).filter (fun v => decide (v < 250))).length
  · rw [if_pos hlen, Option.map_some', ← hds] at hr
    have hr' : r = hhArrange (ds.map (fun v => Char.ofNat (48 + v % 10))) :=
      (Option.some.inj hr).symm
    have hdslen : ds.length = 7 := by
      rw [hds, List.length_take]
      omega
    have hdsmem : ∀ d ∈ ds, d < 250 := by
      intro d hd
      rw [hds] at hd
      have hmem := List.of_mem_filter (List.mem_of_mem_take hd)
      simpa using hmem
    obtain ⟨d0, d1, d2, d3, d4, d5, d6, hds7⟩ := list_len7 ds hdslen
    refine ⟨?_, ?_, ?_, ?_, ds, hds, hdslen, hdsmem, hr'⟩
    · intro y hy
      rw [hy]
      unfold humanHash digitsTake
      rw [hdt, if_pos hlen, Option.map_some', ← hds, ← hr']
    · rw [hr', hds7]
      simp [hhArrange]
    · rw [hr', hds7]
      simp [hhArrange]
    · intro i hi hi3
      have hd0 : d0 < 250 := hdsmem d0 (by rw [hds7]; simp)
      have hd1 : d1 < 250 := hdsmem d1 (by rw [hds7]; simp)
      have hd2 : d2 < 250 := hdsmem d2 (by rw [hds7]; simp)
      have hd3 : d3 < 250 := hdsmem d3 (by rw [hds7]; simp)
      have hd4 : d4 < 250 := hdsmem d4 (by rw [hds7]; simp)
      have hd5 : d5 < 250 := hdsmem d5 (by rw [hds7]; simp)
      have hd6 : d6 < 250 := hdsmem d6 (by rw [hds7]; simp)
      rw [hr', hds7]
      simp only [List.map_cons, List.map_nil, hhArrange]
      interval_cases i <;>
        first
          | exact absurd rfl hi3
          | · simp only [List.getD_cons_succ, List.getD_cons_zero]
              exact digit_char_isDigit _ (Nat.mod_lt _ (by omega))
  · rw [if_neg hlen] at hr
    exact absurd hr (by simp)

/-- Closed witness for `c7_humanhash_shape`: on input `"hello"` the
fingerprint is exactly the 8-character `427-5636`, with `-` at index 3. -/
theorem c7_humanhash_shape_witness :
    ("427-5636".data.length = 8) ∧ ("427-5636".data.getD 3 ' ' = '-') :=
  ⟨(c7_humanhash_shape (strBytes "hello".data) "427-5636".data (by decide)).2.1,
   (c7_humanhash_shape (strBytes "hello".data) "427-5636".data (by decide)).2.2.1⟩

/-- C10.  `HumanHash` is partial, not total: the digit loop indexes successive
digest bytes with no bounds guard, so it returns a fingerprint exactly when at
least 7 of the 32 SHA-256 digest bytes are below 250, and on any input whose
digest has fewer than 7 such bytes the index runs past the digest's end — the
Go code panics (`none` in the model). -/
theorem c10_humanhash_partial (x : List Nat) :
    (sha256 x).length = 32
    ∧ ((humanHash x).isSome = true ↔
        7 ≤ ((sha256 x).filter (fun v => decide (v < 250))).length)
    ∧ (humanHash x = none ↔
        ((sha256 x).filter (fun v => decide (v < 250))).length < 7) := by
  have hiff : humanHash x = none
      ↔ ¬ (7 ≤ ((sha256 x).filter (fun v => decide (v < 250))).length) := by
    unfold humanHash digitsTake
    rw [digitsGo_eq (sha256 x) 7]
    by_cases hlen : 7 ≤ ((sha256 x).filter (fun v => decide (v < 250))).length
    · rw [if_pos hlen]
      simp [hlen]
    · rw [if_neg hlen]
      simp [hlen]
  refine ⟨sha256_length x, ?_, ?_⟩
  · constructor
    · intro h
      by_contra hc
      rw [hiff.mpr hc] at h
      simp at h
    · intro h
      cases hh : humanHash x with
      | none => exact absurd (hiff.mp hh) (by omega)
      | some _ => rfl
  · constructor
    · intro h
      have := hiff.mp h
      omega
    · intro h
      exact hiff.mpr (by omega)

/-! ## Advertiser epoch lemmas (C8) -/

theorem wrap32_id (x : Int) (h1 : -I32BOUND ≤ x) (h2 : x < I32BOUND) : wrap32 x = x := by
  unfold wrap32 I32BOUND at *
  omega

/-- C8.  The advertiser's `int32` epoch counter never silently wraps: whenever
a tick sends a beacon, the epoch it carries is exactly the previous value plus
one — strictly larger, never smaller, than any previously sent epoch — and a
tick at the maximum representable value `2^31 - 1` hits the fatal panic
(`"ticks wrapped"`) instead of sending anything. -/
theorem c8_epoch_no_silent_wrap (e : Int) (h1 : -I32BOUND ≤ e) (h2 : e < I32BOUND) :
    (∀ v, advTick e = .sends v → v = e + 1 ∧ e < v ∧ 0 ≤ v)
    ∧ (e = I32BOUND - 1 → advTick e = .panics) := by
  constructor
  · intro v hsend
    by_cases hmax : e = I32BOUND - 1
    · exfalso
      have hw : wrap32 (e + 1) = -I32BOUND := by
        rw [hmax]
        decide
      unfold advTick at hsend
      rw [hw] at hsend
      rw [if_pos (by decide)] at hsend
      exact AdvOutcome.noConfusion hsend
    · have hw : wrap32 (e + 1) = e + 1 := wrap32_id _ (by omega) (by omega)
      unfold advTick at hsend
      rw [hw] at hsend
      by_cases hp : e + 1 < epochStopMarker
      · rw [if_pos hp] at hsend
        exact absurd hsend (by simp)
      · rw [if_neg hp] at hsend
        by_cases hn : e + 1 < 0
        · rw [if_pos hn] at hsend
          exact absurd hsend (by simp)
        · rw [if_neg hn] at hsend
          have hv : e + 1 = v := by injection hsend
          refine ⟨hv.symm, by omega, by omega⟩
  · intro hmax
    have hw : wrap32 (e + 1) = -I32BOUND := by
      rw [hmax]
      decide
    unfold advTick
    rw [hw, if_pos (by decide)]

/-- Closed witness for `c8_epoch_no_silent_wrap`: at the maximum `int32` epoch
`2147483647` the next tick panics rather than sending a wrapped epoch. -/
theorem c8_epoch_no_silent_wrap_witness : advTick 2147483647 = .panics :=
  (c8_epoch_no_silent_wrap 2147483647 (by decide) (by decide)).2 (by decide)

/-! ## Self-collision lemmas (C1) -/

/-- C1 counterexample.  A concrete run refuting the claim as stated: the local
instance's epoch is 5 and the incoming self-beacon announces epoch 3, so by
the claim the local instance — whose epoch is *strictly higher* — should only
log a warning and continue; instead the code's `theirEpoch <= s.epoch.Load()`
test fires and the local instance stops itself (epoch set to the stop
marker). -/
theorem c1_self_collision_counterexample :
    handleDatagram ⟨"10.0.0.5", "alice", "pk"⟩ ⟨"10.0.0.5", 1111⟩
        ⟨⟨[], 0⟩, 5⟩ ⟨"10.0.0.5", 2222⟩ (some ("alice", "pk", 3)) 0
      = (⟨⟨[], 0⟩, -999⟩, .selfStop)
    ∧ (3 : Int) < 5 := by
  constructor
  · rfl
  · decide

/-- C1 amended.  When the multicast receive loop decodes a beacon whose
candidate Peer equals the local identity, the instance stops itself exactly
when the *incoming* epoch is lower than or equal to its own current epoch,
and it only logs a warning and continues (state unchanged) exactly when the
incoming epoch is strictly higher — i.e. the surviving instance is the one
with the strictly *lower* epoch (the one started later), not the one with the
higher epoch. -/
theorem c1_self_collision_rule (us : Peer) (ourAddr srcAddr : Addr) (s : NetState)
    (name pubKey : String) (theirEpoch : Int) (now : Nat)
    (hsrc : srcAddr ≠ ourAddr)
    (hpeer : (⟨srcAddr.ip, name, pubKey⟩ : Peer) = us) :
    (theirEpoch ≤ s.epoch →
      handleDatagram us ourAddr s srcAddr (some (name, pubKey, theirEpoch)) now
        = (serverStop s, .selfStop))
    ∧ (s.epoch < theirEpoch →
      handleDatagram us ourAddr s srcAddr (some (name, pubKey, theirEpoch)) now
        = (s, .selfWarn)) := by
  constructor
  · intro hle
    simp only [handleDatagram, if_neg hsrc, if_pos hpeer, if_pos hle]
  · intro hgt
    simp only [handleDatagram, if_neg hsrc, if_pos hpeer,
      if_neg (show ¬ theirEpoch ≤ s.epoch by omega)]

/-- Closed witness for `c1_self_collision_rule`: equal epochs (2 and 2) — the
receiving instance stops itself. -/
theorem c1_self_collision_rule_witness :
    handleDatagram ⟨"10.0.0.5", "alice", "pk"⟩ ⟨"10.0.0.5", 1111⟩
        ⟨⟨[], 0⟩, 2⟩ ⟨"10.0.0.5", 2222⟩ (some ("alice", "pk", 2)) 0
      = (serverStop ⟨⟨[], 0⟩, 2⟩, .selfStop) :=
  (c1_self_collision_rule ⟨"10.0.0.5", "alice", "pk"⟩ ⟨"10.0.0.5", 1111⟩
    ⟨"10.0.0.5", 2222⟩ ⟨⟨[], 0⟩, 2⟩ "alice" "pk" 2 0 (by decide) (by decide)).1 (by decide)

/-! ## Registry lookup lemmas for the engine claims (C9, C2) -/

theorem find?_upsert_ne {K V : Type} [DecidableEq K] (k k' : K) (v : V) (hne : k' ≠ k) :
    ∀ l : List (K × V),
      (upsert l k' v).find? (fun p => p.1 = k) = l.find? (fun p => p.1 = k) := by
  intro l
  induction l with
  | nil => simp [upsert, List.find?, decide_eq_false hne]
  | cons p rest ih =>
    by_cases hp : p.1 = k'
    · have hpk : ¬ (p.1 = k) := by
        rw [hp]
        exact hne
      simp [upsert, hp, List.find?, decide_eq_false hne, decide_eq_false hpk]
    · by_cases hpk : p.1 = k
      · simp [upsert, hp, List.find?, decide_eq_true hpk]
      · simp [upsert, hp, List.find?, decide_eq_false hpk, ih]

theorem get_set_ne {K V : Type} [DecidableEq K] (s : SMap K V) (k k' : K) (v : V)
    (hne : k' ≠ k) : (s.set k' v).get k = s.get k := by
  simp [SMap.get, SMap.set, find?_upsert_ne k k' v hne]

theorem find?_upsert_self {K V : Type} [DecidableEq K] (k : K) (v : V) :
    ∀ l : List (K × V), (upsert l k v).find? (fun p => p.1 = k) = some (k, v) := by
  intro l
  induction l with
  | nil => simp [upsert, List.find?]
  | cons p rest ih =>
    by_cases hp : p.1 = k
    · simp [upsert, hp, List.find?]
    · simp [upsert, hp, List.find?, decide_eq_false hp, ih]

theorem get_set_self {K V : Type} [DecidableEq K] (s : SMap K V) (k : K) (v : V) :
    (s.set k v).get k = some v := by
  simp [SMap.get, SMap.set, find?_upsert_self]

theorem get_delete_self {K V : Type} [DecidableEq K] (s : SMap K V) (k : K) :
    (s.delete [k]).get k = none := by
  simp only [SMap.get, SMap.delete, List.foldl_cons, List.foldl_nil, eraseKey]
  rw [List.find?_eq_none.mpr]
  · rfl
  · intro p hp
    have := List.of_mem_filter hp
    simpa using this

/-- One iteration of the multicast receive loop preserves "our own identity is
not a key of the Peers registry". -/
theorem handleDatagram_preserves_no_self (us : Peer) (ourAddr srcAddr : Addr)
    (s : NetState) (decoded : Option (String × String × Int)) (now : Nat)
    (h : s.peers.get us = none) :
    (handleDatagram us ourAddr s srcAddr decoded now).1.peers.get us = none := by
  unfold handleDatagram
  by_cases hsrc : srcAddr = ourAddr
  · rw [if_pos hsrc]
    exact h
  · rw [if_neg hsrc]
    match decoded with
    | none => exact h
    | some (name, pubKey, theirEpoch) =>
      by_cases hpeer : (⟨srcAddr.ip, name, pubKey⟩ : Peer) = us
      · simp only [if_pos hpeer]
        by_cases hle : theirEpoch ≤ s.epoch
        · rw [if_pos hle]
          unfold serverStop
          by_cases hstop : s.epoch < 0
          · rw [if_pos hstop]
            exact h
          · rw [if_neg hstop]
            exact h
        · rw [if_neg hle]
          exact h
      · simp only [if_neg hpeer]
        cases hget : s.peers.get ⟨srcAddr.ip, name, pubKey⟩ with
        | some v =>
          simpa using (get_set_ne s.peers us ⟨srcAddr.ip, name, pubKey⟩ _ hpeer).trans h
        | none =>
          cases hhh : newPeerHumanHash pubKey with
          | some hh =>
            simpa using (get_set_ne s.peers us ⟨srcAddr.ip, name, pubKey⟩ _ hpeer).trans h
          | none => exact h

theorem recvRun_preserves_no_self (us : Peer) (ourAddr : Addr) :
    ∀ (inputs : List (Addr × Option (String × String × Int) × Nat)) (s : NetState),
      s.peers.get us = none → (recvRun us ourAddr s inputs).peers.get us = none := by
  intro inputs
  induction inputs with
  | nil => intro s h; exact h
  | cons i rest ih =>
    intro s h
    exact ih _ (handleDatagram_preserves_no_self us ourAddr i.1 s i.2.1 i.2.2 h)

/-- C9.  The local node's own identity is never a key of its own Peers
registry: starting from the engine's fresh (empty) registry, after any finite
run of the multicast receive loop the key `us` is still absent, because the
handler returns before any insertion both when the datagram's source address
equals the engine's bound send address and when the decoded candidate Peer
equals the local identity. -/
theorem c9_never_own_key (us : Peer) (ourAddr srcAddr : Addr) (e0 : Int)
    (inputs : List (Addr × Option (String × String × Int) × Nat)) (s : NetState)
    (decoded : Option (String × String × Int)) (now : Nat)
    (h : s.peers.get us = none) :
    ((recvRun us ourAddr ⟨SMap.new Peer PeerData, e0⟩ inputs).peers.get us = none)
    ∧ ((handleDatagram us ourAddr s srcAddr decoded now).1.peers.get us = none)
    ∧ (srcAddr = ourAddr → (handleDatagram us ourAddr s srcAddr decoded now).1 = s)
    ∧ (∀ name pubKey theirEpoch, decoded = some (name, pubKey, theirEpoch) →
        (⟨srcAddr.ip, name, pubKey⟩ : Peer) = us →
        (handleDatagram us ourAddr s srcAddr decoded now).1.peers = s.peers) := by
  refine ⟨recvRun_preserves_no_self us ourAddr inputs _ rfl,
    handleDatagram_preserves_no_self us ourAddr srcAddr s decoded now h, ?_, ?_⟩
  · intro hsrc
    unfold handleDatagram
    rw [if_pos hsrc]
  · intro name pubKey theirEpoch hdec hpeer
    subst hdec
    by_cases hsrc : srcAddr = ourAddr
    · unfold handleDatagram
      rw [if_pos hsrc]
    · simp only [handleDatagram, if_neg hsrc, if_pos hpeer]
      by_cases hle : theirEpoch ≤ s.epoch
      · rw [if_pos hle]
        unfold serverStop
        by_cases hstop : s.epoch < 0
        · rw [if_pos hstop]
        · rw [if_neg hstop]
      · rw [if_neg hle]

/-- Closed witness for `c9_never_own_key`: a three-datagram run (another
peer's beacon, our own looped-back packet, and a self-collision beacon with a
higher epoch) never makes the local identity a registry key. -/
theorem c9_never_own_key_witness :
    (recvRun ⟨"10.0.0.5", "alice", "pk"⟩ ⟨"10.0.0.5", 1111⟩
        ⟨SMap.new Peer PeerData, 4⟩
        [(⟨"10.0.0.5", 1111⟩, some ("alice", "pk", 9), 0),
         (⟨"10.0.0.5", 2222⟩, some ("alice", "pk", 9), 1),
         (⟨"10.0.0.9", 3333⟩, none, 2)]).peers.get
      ⟨"10.0.0.5", "alice", "pk"⟩ = none :=
  (c9_never_own_key ⟨"10.0.0.5", "alice", "pk"⟩ ⟨"10.0.0.5", 1111⟩ ⟨"10.0.0.9", 3333⟩ 4
    [(⟨"10.0.0.5", 1111⟩, some ("alice", "pk", 9), 0),
     (⟨"10.0.0.5", 2222⟩, some ("alice", "pk", 9), 1),
     (⟨"10.0.0.9", 3333⟩, none, 2)]
    ⟨SMap.new Peer PeerData, 4⟩ none 2 (by decide)).1

/-! ## ConnectToPeer lemmas (C2) -/

/-- C2 counterexample.  A concrete run refuting the claim as stated: calling
`ConnectToPeer` on a peer absent from the Peers registry returns an error,
yet after the call the Connections registry still holds the just-created
`Connecting` entry for that peer — it is not deleted. -/
theorem c2_connect_counterexample :
    (connectToPeer ⟨⟨[], 0⟩, ⟨[], 0⟩⟩ ⟨"10.0.0.7", "bob", "pk"⟩ 7
        (.ok 1) (fun _ => .ok ())).2
      = .error "peer not found in peer list"
    ∧ (connectToPeer ⟨⟨[], 0⟩, ⟨[], 0⟩⟩ ⟨"10.0.0.7", "bob", "pk"⟩ 7
        (.ok 1) (fun _ => .ok ())).1.connections.get ⟨"10.0.0.7", "bob", "pk"⟩
      = some ⟨⟨"10.0.0.7", "bob", "pk"⟩, .connecting, 7, none⟩ := by
  constructor
  · rfl
  · rfl

/-- C2 amended.  `ConnectToPeer`'s actual error behaviour: the error is always
reported to the caller, but only the write failure deletes the Connection
entry.  When the target peer is absent from the Peers registry, or when the
unicast socket cannot be opened, the call returns the error and *leaves* the
`Connecting` entry in the Connections registry; only when the write of the
request fails is the entry deleted.  On full success the entry is `ConnSent`
with the socket handle. -/
theorem c2_connect_error_paths (s : ConnState) (peer : Peer) (now : Nat)
    (dial : Except String Nat) (write : Nat → Except String Unit) :
    (s.peers.get peer = none →
      (connectToPeer s peer now dial write).2 = .error "peer not found in peer list"
      ∧ (connectToPeer s peer now dial write).1.connections.get peer
          = some ⟨peer, .connecting, now, none⟩)
    ∧ (∀ pd e, s.peers.get peer = some pd → dial = .error e →
      (connectToPeer s peer now dial write).2 = .error e
      ∧ (connectToPeer s peer now dial write).1.connections.get peer
          = some ⟨peer, .connecting, now, none⟩)
    ∧ (∀ pd h e, s.peers.get peer = some pd → dial = .ok h → write h = .error e →
      (connectToPeer s peer now dial write).2 = .error e
      ∧ (connectToPeer s peer now dial write).1.connections.get peer = none)
    ∧ (∀ pd h, s.peers.get peer = some pd → dial = .ok h → write h = .ok () →
      (connectToPeer s peer now dial write).2 = .ok ()
      ∧ (connectToPeer s peer now dial write).1.connections.get peer
          = some ⟨peer, .connSent, now, some h⟩) := by
  refine ⟨?_, ?_, ?_, ?_⟩
  · intro habs
    unfold connectToPeer
    rw [habs]
    exact ⟨rfl, get_set_self s.connections peer _⟩
  · intro pd e hpd hdial
    unfold connectToPeer
    rw [hpd, hdial]
    exact ⟨rfl, get_set_self s.connections peer _⟩
  · intro pd h e hpd hdial hwrite
    unfold connectToPeer
    simp only [hpd, hdial, hwrite]
    exact ⟨trivial, get_delete_self _ peer⟩
  · intro pd h hpd hdial hwrite
    unfold connectToPeer
    simp only [hpd, hdial, hwrite]
    exact ⟨trivial, get_set_self _ peer _⟩

/-- Closed witness for `c2_connect_error_paths`: the write-failure leg at a
concrete state (peer present, dial succeeds, write fails) — error reported
and the entry deleted. -/
theorem c2_connect_error_paths_witness :
    (connectToPeer ⟨⟨[(⟨"10.0.0.7", "bob", "pk"⟩, ⟨"766-2806", 29556, 1, 0⟩)], 1⟩, ⟨[], 0⟩⟩
        ⟨"10.0.0.7", "bob", "pk"⟩ 7 (.ok 1) (fun _ => .error "wire down")).2
      = .error "wire down"
    ∧ (connectToPeer ⟨⟨[(⟨"10.0.0.7", "bob", "pk"⟩, ⟨"766-2806", 29556, 1, 0⟩)], 1⟩, ⟨[], 0⟩⟩
        ⟨"10.0.0.7", "bob", "pk"⟩ 7 (.ok 1) (fun _ => .error "wire down")).1.connections.get
        ⟨"10.0.0.7", "bob", "pk"⟩
      = none :=
  (c2_connect_error_paths
    ⟨⟨[(⟨"10.0.0.7", "bob", "pk"⟩, ⟨"766-2806", 29556, 1, 0⟩)], 1⟩, ⟨[], 0⟩⟩
    ⟨"10.0.0.7", "bob", "pk"⟩ 7 (.ok 1) (fun _ => .error "wire down")).2.2.1
    ⟨"766-2806", 29556, 1, 0⟩ 1 "wire down" (by decide) rfl rfl

end Tsync
